import Mathlib

namespace UrbanLift

/-!
# Traffic-weighted routing and pooling engine: verification

Shallow embedding of the routing/pooling core of the urban-lift repository
(`scripts/sprint3_route_optimization.py` and
`scripts/sprint4_pooling_integration.py`), with theorems checking the
specification's claims against it.  Machine arithmetic is embedded in `ℚ`
(Python floats are idealized as exact rationals; note that `ℚ` division by
zero yields `0`, where Python raises `ZeroDivisionError` — either way a
division by zero never produces a positive finite value).
-/

/-! ## Weighted graph builder: travel-time weights

`sprint3_route_optimization.py` lines 100-107 and
`sprint4_pooling_integration.py` lines 90-94:
`length_km = length / 1000; travel_time_minutes = (length_km / speed_kph) * 60`. -/

def travel_time_minutes (length_m speed_kph : ℚ) : ℚ :=
  length_m / 1000 / speed_kph * 60

/-! ## Road-class default speeds

`sprint3_route_optimization.py` lines 64-75.  The table is a Python dict
iterated in insertion order; matching is by substring containment
(`road_type in highway_str`) on the lower-cased highway label. -/

def default_speeds : List (String × ℚ) :=
  [("primary", 45), ("secondary", 35), ("tertiary", 25),
   ("primary_link", 40), ("secondary_link", 30), ("tertiary_link", 20)]

/-- Python's `str.lower()`, on the character list of a string. -/
def lowerL (l : List Char) : List Char := l.map Char.toLower

/-- `pat.startsWithL s`: the char list `s` starts with the char list `pat`
(embedding of the left-anchored part of Python substring search). -/
def startsWithL : List Char → List Char → Bool
  | [], _ => true
  | _ :: _, [] => false
  | p :: ps, c :: cs => p == c && startsWithL ps cs

/-- `containsL pat s`: Python's `pat in s` substring test on char lists. -/
def containsL (pat : List Char) : List Char → Bool
  | [] => startsWithL pat []
  | c :: cs => startsWithL pat (c :: cs) || containsL pat cs

/-- `sprint3_route_optimization.py` lines 70-75: first table entry whose key is
a substring of the lower-cased highway label wins; fallback 30. -/
def get_default_speed (highway : String) : ℚ :=
  let hs := lowerL highway.data
  match default_speeds.find? (fun p => containsL p.1.data hs) with
  | some p => p.2
  | none => 30

/-- `sprint3_route_optimization.py` lines 77-78: only rows whose merged
`avg_speed_kph` is missing (NaN) get the road-class default; any present
value — including `0` — is kept as is. -/
def resolved_speed (avg : Option ℚ) (highway : String) : ℚ :=
  match avg with
  | some v => v
  | none => get_default_speed highway

/-- `sprint4_pooling_integration.py` lines 82-84: the sprint-4 rebuild fills
every missing speed with the flat constant 30 (its `default_speeds` dict is
defined but never consulted). -/
def resolved_speed_sprint4 (avg : Option ℚ) : ℚ :=
  match avg with
  | some v => v
  | none => 30

/-! ## DRLAgent.calculate_path_stats (`sprint4_pooling_integration.py` lines 31-60) -/

structure EdgeInfo where
  length : ℚ
  travel_time : ℚ
deriving DecidableEq

structure PathStats where
  distance : ℚ
  travel_time : ℚ
  avg_speed : ℚ
deriving DecidableEq

/-- Lines 44-48: among parallel edges (the dict values in iteration order),
pick the one with minimal `travel_time` — Python's `min` keeps the first
minimum; with a single edge, take it directly.  The empty case cannot occur on
paths returned by the path finder (the real code would raise `KeyError`). -/
def selectEdge : List EdgeInfo → EdgeInfo
  | [] => ⟨0, 0⟩
  | [e] => e
  | e :: e' :: rest =>
    (e' :: rest).foldl (fun acc x => if x.travel_time < acc.travel_time then x else acc) e

/-- Lines 31-60: `None` and paths of fewer than 2 nodes (`not path or
len(path) < 2`) short-circuit to all-zero stats; otherwise lengths and travel
times of the selected edges are summed and
`avg_speed = distance_km / (travel_time / 60) if travel_time > 0 else 0`. -/
def calculate_path_stats (edges : ℕ → ℕ → List EdgeInfo) : Option (List ℕ) → PathStats
  | none => ⟨0, 0, 0⟩
  | some p =>
    if p.length < 2 then ⟨0, 0, 0⟩
    else
      let infos := (p.zip p.tail).map (fun uv => selectEdge (edges uv.1 uv.2))
      let total_distance := (infos.map EdgeInfo.length).sum
      let total_travel_time := (infos.map EdgeInfo.travel_time).sum
      let dkm := total_distance / 1000
      ⟨dkm, total_travel_time,
        if 0 < total_travel_time then dkm / (total_travel_time / 60) else 0⟩

/-! ## Pooling engine (`sprint4_pooling_integration.py` lines 106-187) -/

structure Ship where
  sid : String
  start_lat : ℚ
  start_lng : ℚ
  end_lat : ℚ
  end_lng : ℚ
  weight : ℚ
deriving DecidableEq

/-- Arithmetic mean (`np.mean`); the empty case is never hit by the code paths
modelled here. -/
def mean (l : List ℚ) : ℚ := l.sum / l.length

/-- Population variance, i.e. the square of the standard deviation
`StandardScaler` divides by (`ddof = 0`, as scikit-learn uses). -/
def popVariance (l : List ℚ) : ℚ := ((l.map (fun x => (x - mean l) ^ 2)).sum) / l.length

/-- `StandardScaler.transform` on one axis: `(x - μ) / σ`.  The standard
deviation `σ` enters as a parameter because square roots are irrational in
general; the theorems below supply inputs whose variance `σ²` is exactly 1,
so `σ = 1`. -/
def scaler_transform (μ σ : ℚ) (xs : List ℚ) : List ℚ := xs.map (fun x => (x - μ) / σ)

/-- Lines 150-157: the clustering fit data interleaves, per shipment, the
pickup coordinate then the delivery coordinate (latitude axis shown; the
longitude axis is symmetric). -/
def clusterCoordsLat (ships : List Ship) : List ℚ :=
  ships.flatMap (fun s => [s.start_lat, s.end_lat])

/-- Lines 167-168: the features actually clustered are the pickup (start)
coordinates, transformed with the scaler fitted on `clusterCoordsLat`. -/
def startLats (ships : List Ship) : List ℚ := ships.map Ship.start_lat

/-- Line 164: `optimal_clusters = max(2, min(8, len(shipments) // 4))`. -/
def optimal_clusters (n : ℕ) : ℕ := max 2 (min 8 (n / 4))

/-- Modelled from the spec: the `InsufficientShipments` fatal precondition of
the Pooling Engine.  The validation that makes an under-2-shipment input fail
is not in `src/` — it lives in scikit-learn (`StandardScaler.fit` rejects an
empty matrix, `KMeans.fit_predict` rejects `n_samples < n_clusters`); the
surrounding control flow (`optimal_clusters`, and the `try/except` at lines
148-187 that aborts the run on any such error before pools are formed) is
from the source. -/
def pool_shipments (ships : List Ship) : Except String (List Ship × ℕ) :=
  if ships.length = 0 then
    Except.error "StandardScaler.fit: 0 samples"
  else
    let k := optimal_clusters ships.length
    if ships.length < k then
      Except.error "KMeans: n_samples is smaller than n_clusters"
    else
      Except.ok (ships, k)

/-- Two shipments with pickups at latitude 0 and deliveries at latitude 2. -/
def c5ships : List Ship :=
  [⟨"SHIP_001", 0, 0, 2, 2, 100⟩, ⟨"SHIP_002", 0, 0, 2, 2, 200⟩]

/-! ## Route sequencer (`sprint4_pooling_integration.py` lines 196-244) -/

inductive StopType
  | pickup
  | delivery
deriving DecidableEq

structure Stop where
  type : StopType
  shipment_id : String
  lat : ℚ
  lng : ℚ
  weight : ℚ
deriving DecidableEq

/-- Lines 197-212: each member shipment expands into a pickup stop followed by
a delivery stop. -/
def mkStops (pool : List Ship) : List Stop :=
  pool.flatMap (fun s =>
    [⟨StopType.pickup, s.sid, s.start_lat, s.start_lng, s.weight⟩,
     ⟨StopType.delivery, s.sid, s.end_lat, s.end_lng, s.weight⟩])

/-- The `stop['type'] == 'pickup'` test of line 216. -/
def isPickupStop (st : Stop) : Bool :=
  match st.type with
  | StopType.pickup => true
  | StopType.delivery => false

/-- The `stop['type'] == 'delivery'` test of line 217. -/
def isDeliveryStop (st : Stop) : Bool :=
  match st.type with
  | StopType.pickup => false
  | StopType.delivery => true

/-- Line 216. -/
def poolPickups (pool : List Ship) : List Stop := (mkStops pool).filter isPickupStop

/-- Line 217. -/
def poolDeliveries (pool : List Ship) : List Stop := (mkStops pool).filter isDeliveryStop

/-- Lines 222-224: centroid (mean latitude/longitude) of the pool's pickups. -/
def pickup_center (pool : List Ship) : ℚ × ℚ :=
  (mean ((poolPickups pool).map Stop.lat), mean ((poolPickups pool).map Stop.lng))

/-- Squared euclidean distance.  The code sorts by `np.sqrt` of this value;
`√` is strictly monotone on nonnegatives, so ordering (ties included) by the
square is identical and keeps the embedding inside `ℚ`. -/
def sqDist (alat alng blat blng : ℚ) : ℚ := (alat - blat) ^ 2 + (alng - blng) ^ 2

/-- Lines 227-232 sort key: (squared) distance of a pickup from the centroid. -/
def pickupKey (pool : List Ship) (st : Stop) : ℚ :=
  sqDist st.lat st.lng (pickup_center pool).1 (pickup_center pool).2

/-- Lines 237-242 sort key: (squared) distance of a delivery from the
last-visited pickup. -/
def deliveryKey (lastPickup st : Stop) : ℚ :=
  sqDist st.lat st.lng lastPickup.lat lastPickup.lng

/-- Line 232: pickups sorted ascending by distance from the centroid
(`list.sort` and `mergeSort` are both stable, so the embedding reproduces the
exact order). -/
def sorted_pickups (pool : List Ship) : List Stop :=
  (poolPickups pool).mergeSort (fun a b => decide (pickupKey pool a ≤ pickupKey pool b))

/-- Lines 235-242: deliveries sorted by distance from the last pickup of the
sorted pickup list; with no pickups (`if pickups:` false) they stay unsorted. -/
def sorted_deliveries (pool : List Ship) : List Stop :=
  match (sorted_pickups pool).getLast? with
  | some lp => (poolDeliveries pool).mergeSort (fun a b => decide (deliveryKey lp a ≤ deliveryKey lp b))
  | none => poolDeliveries pool

/-- Line 244: `ordered_stops = pickups + deliveries`. -/
def ordered_stops (pool : List Ship) : List Stop :=
  sorted_pickups pool ++ sorted_deliveries pool

/-- A concrete 2-shipment pool for the sequencer witness. -/
def c7pool : List Ship :=
  [⟨"SHIP_001", 0, 0, 5, 5, 10⟩, ⟨"SHIP_002", 1, 1, 3, 3, 20⟩]

/-! ## Rounding (Python's banker's rounding, exact-decimal idealization) -/

/-- Python's `round` on rationals: round-half-to-even. -/
def pyRoundInt (q : ℚ) : ℤ :=
  let n : ℤ := ⌊q⌋
  let f : ℚ := q - n
  if f < 1 / 2 then n
  else if 1 / 2 < f then n + 1
  else if n % 2 = 0 then n else n + 1

/-- Python's `round(q, 2)`. -/
def pyRound2 (q : ℚ) : ℚ := (pyRoundInt (q * 100) : ℚ) / 100

/-! ## Pool route computation (`sprint4_pooling_integration.py` lines 246-318) -/

structure RouteCoord where
  sequence : ℕ
  stop_type : StopType
  shipment_id : String
  node : ℕ
deriving DecidableEq

/-- Lines 247-277: walk the ordered stops, appending one route coordinate per
stop and, for each consecutive pair, asking the path finder for the leg.  A
`None` path (`if path:` false) contributes nothing: no totals, no marker in
the output, and no warning — the warning print at line 276 belongs only to
the `except` branch for stop-processing exceptions, which the `None` return
of `find_optimal_path` does not trigger.  Returns (route coordinates, total
travel time, total distance, warnings). -/
def process_stops (near : Stop → ℕ) (finder : ℕ → ℕ → Option (List ℕ))
    (edges : ℕ → ℕ → List EdgeInfo) :
    List Stop → ℕ → List RouteCoord × ℚ × ℚ × List String
  | [], _ => ([], 0, 0, [])
  | a :: rest, i =>
    let coord : RouteCoord := ⟨i, a.type, a.shipment_id, near a⟩
    let tail := process_stops near finder edges rest (i + 1)
    match rest with
    | [] => (coord :: tail.1, tail.2.1, tail.2.2.1, tail.2.2.2)
    | b :: _ =>
      match finder (near a) (near b) with
      | some p =>
        let st := calculate_path_stats edges (some p)
        (coord :: tail.1, st.travel_time + tail.2.1, st.distance + tail.2.2.1, tail.2.2.2)
      | none => (coord :: tail.1, tail.2.1, tail.2.2.1, tail.2.2.2)

/-- Line 289: `efficiency_score = round(n / max(1, travel_time / 60), 2)`. -/
def efficiency_score (n : ℕ) (t : ℚ) : ℚ := pyRound2 ((n : ℚ) / max 1 (t / 60))

/-- Lines 280-290: the pool result record, with exactly the keys the code
emits (there is no unreachable-leg field). -/
structure PoolRouteResult where
  group_id : String
  shipments : List String
  num_shipments : ℕ
  total_weight : ℚ
  route_coordinates : List RouteCoord
  total_distance_km : ℚ
  total_travel_time_minutes : ℚ
  num_stops : ℕ
  efficiency_score : ℚ
deriving DecidableEq

def mkPoolResult (gid : String) (pool : List Ship) (near : Stop → ℕ)
    (finder : ℕ → ℕ → Option (List ℕ)) (edges : ℕ → ℕ → List EdgeInfo) :
    PoolRouteResult :=
  let stops := ordered_stops pool
  let pr := process_stops near finder edges stops 0
  { group_id := gid
    shipments := pool.map Ship.sid
    num_shipments := pool.length
    total_weight := (pool.map Ship.weight).sum
    route_coordinates := pr.1
    total_distance_km := pyRound2 pr.2.2.1
    total_travel_time_minutes := pyRound2 pr.2.1
    num_stops := stops.length
    efficiency_score := efficiency_score pool.length pr.2.1 }

/-- Lines 313-318: run-level summary statistics. -/
structure SummaryStats where
  total_distance_km : ℚ
  total_travel_time_hours : ℚ
  average_shipments_per_pool : ℚ
  average_efficiency_score : ℚ
deriving DecidableEq

def summary_statistics (rs : List PoolRouteResult) : SummaryStats :=
  { total_distance_km := (rs.map PoolRouteResult.total_distance_km).sum
    total_travel_time_hours := (rs.map PoolRouteResult.total_travel_time_minutes).sum / 60
    average_shipments_per_pool := mean (rs.map (fun r => (r.num_shipments : ℚ)))
    average_efficiency_score := mean (rs.map PoolRouteResult.efficiency_score) }

/-- The legs whose path exists, summed over a stat projection — the reference
value for what the totals in `process_stops` accumulate. -/
def reachable_leg_sum (near : Stop → ℕ) (finder : ℕ → ℕ → Option (List ℕ))
    (edges : ℕ → ℕ → List EdgeInfo) (f : PathStats → ℚ) (stops : List Stop) : ℚ :=
  ((stops.zip stops.tail).filterMap (fun ab =>
    (finder (near ab.1) (near ab.2)).map
      (fun p => f (calculate_path_stats edges (some p))))).sum

/-- One shipment, whose single pickup→delivery leg has no path. -/
def c6pool : List Ship := [⟨"SHIP_001", 0, 0, 1, 1, 50⟩]

def c6near : Stop → ℕ := fun st => if st.type = StopType.pickup then 0 else 1

/-- The pool result of `c6pool` under a path finder that never finds a path. -/
def c6result : PoolRouteResult :=
  mkPoolResult "POOL_000" c6pool c6near (fun _ _ => none) (fun _ _ => [])

/-! ## Shortest Path Engine

Modelled from the spec: the engine in the source is the library call
`ox.shortest_path` (`sprint3_route_optimization.py` line 133,
`sprint4_pooling_integration.py` line 26), whose implementation is not code
of this repository.  Following §4.4 of the spec it is modelled as an exact
minimum-travel-time path search over the weighted multigraph in which only
the minimum-weight parallel edge is considered during relaxation, the search
is a pure (hence deterministic) function, and ties among equal-cost paths are
broken toward the lexicographically smallest node sequence.  The
implementation is a Bellman-Ford-style synchronous relaxation iterated as
many times as there are nodes, which for nonnegative weights computes
Dijkstra's distances. -/

structure Edge where
  src : ℕ
  dst : ℕ
  w : ℚ
deriving DecidableEq

abbrev RoadGraph := List Edge

/-- Weights of the parallel edges from `u` to `v`. -/
def pweights (G : RoadGraph) (u v : ℕ) : List ℚ :=
  G.filterMap (fun e => if e.src = u ∧ e.dst = v then some e.w else none)

/-- Minimum weight among the parallel edges from `u` to `v`; `none` when the
node pair is not connected by an edge. -/
def minW (G : RoadGraph) (u v : ℕ) : Option ℚ :=
  match pweights G u v with
  | [] => none
  | w :: ws => some (ws.foldl min w)

/-- `IsWalk G s t p`: `p` is a nonempty node sequence from `s` to `t` whose
consecutive pairs are connected by edges. -/
def IsWalk (G : RoadGraph) (s t : ℕ) (p : List ℕ) : Prop :=
  p ≠ [] ∧ p.head? = some s ∧ p.getLast? = some t ∧
    p.Chain' (fun a b => (minW G a b).isSome)

/-- Travel-time cost of a node sequence: the sum of the minimum parallel-edge
weights of its steps. -/
def wcost (G : RoadGraph) : List ℕ → ℚ
  | u :: v :: rest => (minW G u v).getD 0 + wcost G (v :: rest)
  | _ => 0

/-- Node universe of a query: the source and every edge endpoint. -/
def nodesOf (G : RoadGraph) (s : ℕ) : List ℕ :=
  (s :: G.flatMap (fun e => [e.src, e.dst])).dedup

/-- A tentative entry: best cost and node sequence found so far, if any. -/
abbrev Entry := Option (ℚ × List ℕ)

/-- Lexicographic order on node sequences — the deterministic tie-break. -/
def lexLt : List ℕ → List ℕ → Bool
  | [], [] => false
  | [], _ :: _ => true
  | _ :: _, [] => false
  | a :: as, b :: bs => if a < b then true else if b < a then false else lexLt as bs

/-- The candidate strictly improves on the current entry: smaller cost, or
equal cost and lexicographically smaller node sequence. -/
def betterEntry (cand cur : ℚ × List ℕ) : Bool :=
  if cand.1 < cur.1 then true
  else if cand.1 = cur.1 then lexLt cand.2 cur.2
  else false

def mergeEntry (cur : Entry) (cand : ℚ × List ℕ) : Entry :=
  match cur with
  | none => some cand
  | some c => if betterEntry cand c then some cand else some c

/-- One relaxation candidate per in-neighbour that has a tentative entry. -/
def candidates (G : RoadGraph) (dist : List (ℕ × Entry)) (v : ℕ) :
    List (ℚ × List ℕ) :=
  dist.filterMap (fun ue =>
    match ue.2, minW G ue.1 v with
    | some (du, pu), some w => some (du + w, pu ++ [v])
    | _, _ => none)

def relaxNode (G : RoadGraph) (dist : List (ℕ × Entry)) (v : ℕ) (cur : Entry) :
    Entry :=
  (candidates G dist v).foldl mergeEntry cur

/-- One synchronous relaxation round over all nodes. -/
def relaxRound (G : RoadGraph) (dist : List (ℕ × Entry)) : List (ℕ × Entry) :=
  dist.map (fun ve => (ve.1, relaxNode G dist ve.1 ve.2))

def initDist (G : RoadGraph) (s : ℕ) : List (ℕ × Entry) :=
  (nodesOf G s).map (fun v => (v, if v = s then some (0, [s]) else none))

def bfDist (G : RoadGraph) (s : ℕ) : List (ℕ × Entry) :=
  (relaxRound G)^[(nodesOf G s).length] (initDist G s)

/-- Modelled from the spec: the Shortest Path Engine (spec §4.4), whose
source-side implementation is the `ox.shortest_path`/networkx library call
absent from `src/`.  Returns the minimum-travel-time cost and path from `s`
to `t`, or `none` when the nodes are disconnected (`NoPathFound`). -/
def shortest_path (G : RoadGraph) (s t : ℕ) : Option (ℚ × List ℕ) :=
  ((bfDist G s).lookup t).join

/-! ### The Bellman-Ford invariant -/

/-- After `k` rounds, the tentative entry of node `v` is correct for walks of
at most `k` edges (`k + 1` nodes): `none` means no such walk exists; a stored
`(c, p)` is an actual walk of cost `c` that is at most as expensive as any
such walk. -/
def EntryOk (G : RoadGraph) (s k v : ℕ) : Entry → Prop
  | none => ∀ p, IsWalk G s v p → ¬ p.length ≤ k + 1
  | some (c, p) => IsWalk G s v p ∧ p.length ≤ k + 1 ∧ wcost G p = c ∧
      ∀ q, IsWalk G s v q → q.length ≤ k + 1 → c ≤ wcost G q

def StateOk (G : RoadGraph) (s k : ℕ) (dist : List (ℕ × Entry)) : Prop :=
  dist.map Prod.fst = nodesOf G s ∧ ∀ ve ∈ dist, EntryOk G s k ve.1 ve.2

/-! ## The spec's scenario graph (§8): A=0, B=1, C=2; A→B 1000 m at 50 km/h,
B→C 2000 m at 40 km/h -/

def scenarioGraph : RoadGraph :=
  [⟨0, 1, travel_time_minutes 1000 50⟩, ⟨1, 2, travel_time_minutes 2000 40⟩]

/-- The scenario's edge-data view for the statistics pass: A→B 1000 m at
weight 6/5 min, B→C 2000 m at weight 3 min. -/
def scenarioEdges : ℕ → ℕ → List EdgeInfo := fun u v =>
  if u = 0 ∧ v = 1 then [⟨1000, 6/5⟩]
  else if u = 1 ∧ v = 2 then [⟨2000, 3⟩]
  else []

/-! ## Theorems -/

/-! ### Helper lemmas about substring matching -/

theorem startsWithL_append (p q s : List Char) (h : startsWithL (p ++ q) s = true) :
    startsWithL p s = true := by
  induction p generalizing s with
  | nil => rfl
  | cons a as ih =>
    cases s with
    | nil => simp [startsWithL] at h
    | cons c cs =>
      simp only [List.cons_append, startsWithL, Bool.and_eq_true] at h ⊢
      exact ⟨h.1, ih cs h.2⟩

theorem containsL_append (p q : List Char) (s : List Char)
    (h : containsL (p ++ q) s = true) : containsL p s = true := by
  induction s with
  | nil => simpa [containsL] using startsWithL_append p q [] (by simpa [containsL] using h)
  | cons c cs ih =>
    simp only [containsL, Bool.or_eq_true] at h ⊢
    rcases h with h | h
    · exact Or.inl (startsWithL_append p q _ h)
    · exact Or.inr (ih h)

/-- Evaluation of the table lookup as an if-cascade: because matching is by
substring in insertion order, a label containing `primary` (such as
`primary_link`) always resolves to 45 before the `primary_link` entry is
consulted, and likewise for the other link classes. -/
theorem get_default_speed_cases (highway : String) :
    get_default_speed highway =
      (if containsL "primary".data (lowerL highway.data) then (45 : ℚ)
       else if containsL "secondary".data (lowerL highway.data) then 35
       else if containsL "tertiary".data (lowerL highway.data) then 25
       else 30) := by
  unfold get_default_speed default_speeds
  set hs := lowerL highway.data with hhs
  by_cases h1 : containsL "primary".data hs = true
  · simp [List.find?, h1]
  · by_cases h2 : containsL "secondary".data hs = true
    · simp [List.find?, h1, h2]
    · by_cases h3 : containsL "tertiary".data hs = true
      · simp [List.find?, h1, h2, h3]
      · have h4 : containsL "primary_link".data hs = false := by
          by_contra hc
          have := containsL_append "primary".data "_link".data hs
            (by simpa using Bool.of_not_eq_false hc)
          exact h1 this
        have h5 : containsL "secondary_link".data hs = false := by
          by_contra hc
          have := containsL_append "secondary".data "_link".data hs
            (by simpa using Bool.of_not_eq_false hc)
          exact h2 this
        have h6 : containsL "tertiary_link".data hs = false := by
          by_contra hc
          have := containsL_append "tertiary".data "_link".data hs
            (by simpa using Bool.of_not_eq_false hc)
          exact h3 this
        simp [List.find?, h1, h2, h3, h4, h5, h6]

/-- The default table never yields a nonpositive speed. -/
theorem get_default_speed_pos (highway : String) : 0 < get_default_speed highway := by
  rw [get_default_speed_cases]
  split <;> [norm_num; skip]
  split <;> [norm_num; skip]
  split <;> norm_num

/-! ## Claim C1 -/

/-- C1 counterexample: the claim "every segment's travel-time weight is
strictly positive regardless of input speed and length" fails on the code.  A
zero-length segment (the data model allows length ≥ 0) receives weight 0, and
a present-but-zero aggregated speed is *not* replaced by the default (the
fallback at sprint3 lines 77-78 fires only for missing entries), so the weight
computation divides by zero (`ZeroDivisionError`/non-finite in Python, 0 in
this `ℚ` embedding) — in no reading a strictly positive finite weight. -/
theorem C1_counterexample :
    travel_time_minutes 0 30 = 0 ∧
    resolved_speed (some 0) "primary" = 0 ∧
    travel_time_minutes 1000 (resolved_speed (some 0) "primary") = 0 := by
  refine ⟨by norm_num [travel_time_minutes], rfl, by norm_num [travel_time_minutes, resolved_speed]⟩

/-- C1 (amended): for every segment of positive length whose resolved speed is
positive — in particular whenever the aggregated speed is missing, since every
road-class default is positive — the computed travel-time weight is strictly
positive (and finite, being a rational). -/
theorem C1_weight_positive (L : ℚ) (avg : Option ℚ) (hw : String)
    (hL : 0 < L) (hs : ∀ v, avg = some v → 0 < v) :
    0 < travel_time_minutes L (resolved_speed avg hw) := by
  have hpos : 0 < resolved_speed avg hw := by
    cases avg with
    | none => simpa [resolved_speed] using get_default_speed_pos hw
    | some v => simpa [resolved_speed] using hs v rfl
  unfold travel_time_minutes
  positivity

/-- C1 witness: a 1000 m segment with no traffic data gets a positive weight. -/
theorem C1_weight_positive_witness :
    0 < travel_time_minutes 1000 (resolved_speed none "residential") :=
  C1_weight_positive 1000 none "residential" (by norm_num) (fun v h => nomatch h)

/-! ## Claim C2 -/

/-- C2 counterexample: a segment of class `primary_link` with no aggregated
speed resolves to 45 km/h, not the table's scaled-down 40 km/h — the dict at
sprint3 lines 65-68 is scanned in insertion order with substring matching, so
the `primary` entry captures `primary_link` first. -/
theorem C2_counterexample :
    get_default_speed "primary_link" = 45 ∧ get_default_speed "primary_link" ≠ 40 := by
  constructor <;> decide

/-- C2 (amended): for segments without an aggregated-speed entry, sprint 3
resolves the default by substring matching in table order — any class whose
lower-cased label contains `primary` gets 45, else `secondary` 35, else
`tertiary` 25, else 30; consequently the `*_link` variants receive their base
class value, never the scaled ones.  Present entries (sprint 3 and 4) are kept
verbatim, and sprint 4's rebuild uses the flat constant 30 for every missing
entry regardless of road class. -/
theorem C2_default_speed_resolution (hw : String) :
    get_default_speed hw =
      (if containsL "primary".data (lowerL hw.data) then (45 : ℚ)
       else if containsL "secondary".data (lowerL hw.data) then 35
       else if containsL "tertiary".data (lowerL hw.data) then 25
       else 30) ∧
    (∀ v : ℚ, resolved_speed (some v) hw = v) ∧
    resolved_speed none hw = get_default_speed hw ∧
    (∀ avg : Option ℚ, resolved_speed_sprint4 avg = avg.getD 30) :=
  ⟨get_default_speed_cases hw, fun _ => rfl, rfl, fun avg => by cases avg <;> rfl⟩

/-! ## Claim C10 -/

/-- C10: degenerate paths (`None`, empty, single node) yield all-zero stats,
and the average speed is `distance_km / (travel_time / 60)` exactly when the
accumulated travel time is positive and `0` otherwise — the division is never
taken with a zero denominator. -/
theorem C10_path_stats_safe (edges : ℕ → ℕ → List EdgeInfo) (path : Option (List ℕ)) :
    calculate_path_stats edges none = ⟨0, 0, 0⟩ ∧
    calculate_path_stats edges (some []) = ⟨0, 0, 0⟩ ∧
    (∀ p, path = some p → p.length < 2 → calculate_path_stats edges path = ⟨0, 0, 0⟩) ∧
    (calculate_path_stats edges path).avg_speed =
      (if 0 < (calculate_path_stats edges path).travel_time then
        (calculate_path_stats edges path).distance /
          ((calculate_path_stats edges path).travel_time / 60)
       else 0) := by
  refine ⟨rfl, by simp [calculate_path_stats], ?_, ?_⟩
  · rintro p rfl hlen
    simp [calculate_path_stats, hlen]
  · cases path with
    | none => simp [calculate_path_stats]
    | some p =>
      by_cases hlen : p.length < 2
      · simp [calculate_path_stats, hlen]
      · simp only [calculate_path_stats, hlen, if_false]

/-- C10 witness: evaluation at a concrete graph and the `None` path. -/
theorem C10_path_stats_safe_witness :
    calculate_path_stats (fun _ _ => [⟨1000, 2⟩]) none = ⟨0, 0, 0⟩ :=
  (C10_path_stats_safe (fun _ _ => [⟨1000, 2⟩]) none).1

/-! ## Claim C5 -/

/-- C5 counterexample: the scaler is fitted on the combined pickup *and*
delivery coordinates (lines 150-161) and only then applied to the pickups
(line 168), so the clustered pickup features are not standardized to zero
mean.  Concretely, with both pickups at latitude 0 and both deliveries at
latitude 2, the fit data `[0, 2, 0, 2]` has mean 1 and variance 1 (hence
σ = √1 = 1), and the transformed pickups `[-1, -1]` have mean −1 ≠ 0. -/
theorem C5_counterexample :
    popVariance (clusterCoordsLat c5ships) = 1 ∧
    mean (clusterCoordsLat c5ships) = 1 ∧
    scaler_transform (mean (clusterCoordsLat c5ships)) 1 (startLats c5ships) = [-1, -1] ∧
    mean (scaler_transform (mean (clusterCoordsLat c5ships)) 1 (startLats c5ships)) = -1 := by
  norm_num [popVariance, mean, clusterCoordsLat, startLats, scaler_transform, c5ships]

/-- C5 (amended): the pickup features are standardized with the mean and
variance of the combined pickup-and-delivery coordinates (so they need not
have zero mean / unit variance themselves); `k = max(2, min(8, n / 4))`
(integer division), which always satisfies `2 ≤ k ≤ 8` and `k ≤ n` for
`n ≥ 2` shipments. -/
theorem C5_cluster_count (n : ℕ) (hn : 2 ≤ n) :
    optimal_clusters n = max 2 (min 8 (n / 4)) ∧
    2 ≤ optimal_clusters n ∧ optimal_clusters n ≤ 8 ∧ optimal_clusters n ≤ n := by
  refine ⟨rfl, ?_, ?_, ?_⟩ <;> (unfold optimal_clusters; omega)

/-- C5 witness: with 5 shipments, k = 2 and k ≤ 5. -/
theorem C5_cluster_count_witness : 2 ≤ 5 ∧ optimal_clusters 5 ≤ 5 :=
  ⟨by norm_num, (C5_cluster_count 5 (by norm_num)).2.2.2⟩

/-! ## Claim C9 -/

/-- C9: with fewer than 2 shipments the pooling stage never produces pools —
an empty input fails the scaler fit, a single shipment fails the k-means
sample check (`k = max(2, min(8, 1 / 4)) = 2 > 1`); either error aborts the
pooling run. -/
theorem C9_insufficient_shipments (ships : List Ship) (h : ships.length < 2) :
    ∀ r, pool_shipments ships ≠ Except.ok r := by
  intro r
  have h0 : ships.length = 0 ∨ ships.length = 1 := by omega
  unfold pool_shipments
  rcases h0 with h0 | h0 <;> simp [h0, optimal_clusters]

/-- C9 witness: a single concrete shipment is rejected. -/
theorem C9_insufficient_shipments_witness :
    ([⟨"SHIP_001", 0, 0, 2, 2, 100⟩] : List Ship).length < 2 ∧
    ∀ r, pool_shipments [⟨"SHIP_001", 0, 0, 2, 2, 100⟩] ≠ Except.ok r :=
  ⟨by norm_num, C9_insufficient_shipments _ (by norm_num)⟩

/-! ### Counting helpers for the sequencer -/

theorem countP_poolPickups (pool : List Ship) (x : String) :
    (poolPickups pool).countP (fun st => decide (st.shipment_id = x)) =
      (pool.map Ship.sid).count x := by
  induction pool with
  | nil => rfl
  | cons s rest ih =>
    simp only [poolPickups, mkStops, List.flatMap_cons, List.filter_append,
      List.countP_append, List.map_cons, List.count_cons] at ih ⊢
    by_cases hx : s.sid = x <;>
      simp [List.filter, isPickupStop, List.countP_cons, hx, ih, poolPickups, mkStops,
        Nat.add_comm]

theorem countP_poolDeliveries (pool : List Ship) (x : String) :
    (poolDeliveries pool).countP (fun st => decide (st.shipment_id = x)) =
      (pool.map Ship.sid).count x := by
  induction pool with
  | nil => rfl
  | cons s rest ih =>
    simp only [poolDeliveries, mkStops, List.flatMap_cons, List.filter_append,
      List.countP_append, List.map_cons, List.count_cons] at ih ⊢
    by_cases hx : s.sid = x <;>
      simp [List.filter, isDeliveryStop, List.countP_cons, hx, ih, poolDeliveries, mkStops,
        Nat.add_comm]

theorem mem_poolPickups_type {pool : List Ship} {st : Stop} (h : st ∈ poolPickups pool) :
    st.type = StopType.pickup := by
  have hf := List.of_mem_filter h
  cases hty : st.type with
  | pickup => rfl
  | delivery => simp [isPickupStop, hty] at hf

theorem mem_poolDeliveries_type {pool : List Ship} {st : Stop} (h : st ∈ poolDeliveries pool) :
    st.type = StopType.delivery := by
  have hf := List.of_mem_filter h
  cases hty : st.type with
  | pickup => simp [isDeliveryStop, hty] at hf
  | delivery => rfl

theorem sorted_pickups_perm (pool : List Ship) :
    (sorted_pickups pool).Perm (poolPickups pool) :=
  List.mergeSort_perm _ _

theorem sorted_deliveries_perm (pool : List Ship) :
    (sorted_deliveries pool).Perm (poolDeliveries pool) := by
  unfold sorted_deliveries
  cases h : (sorted_pickups pool).getLast? with
  | none => exact List.Perm.refl _
  | some lp => exact List.mergeSort_perm _ _

/-! ## Claim C7 -/

/-- C7: the stop sequence is the pool's pickup stops sorted ascending by
(squared) distance from the pickup centroid, followed by the delivery stops
sorted ascending by (squared) distance from the last sorted pickup, and —
for pools whose member shipment ids are distinct — contains exactly two stops
per member shipment: one pickup and one delivery. -/
theorem C7_route_sequencer (pool : List Ship) (hnd : (pool.map Ship.sid).Nodup)
    (s : Ship) (hs : s ∈ pool) :
    ordered_stops pool = sorted_pickups pool ++ sorted_deliveries pool ∧
    (sorted_pickups pool).Pairwise (fun a b => pickupKey pool a ≤ pickupKey pool b) ∧
    (∀ lp, (sorted_pickups pool).getLast? = some lp →
      (sorted_deliveries pool).Pairwise (fun a b => deliveryKey lp a ≤ deliveryKey lp b)) ∧
    (sorted_pickups pool).Perm (poolPickups pool) ∧
    (sorted_deliveries pool).Perm (poolDeliveries pool) ∧
    ((ordered_stops pool).filter (fun st => decide (st.shipment_id = s.sid))).length = 2 ∧
    ((ordered_stops pool).filter
      (fun st => decide (st.type = StopType.pickup ∧ st.shipment_id = s.sid))).length = 1 ∧
    ((ordered_stops pool).filter
      (fun st => decide (st.type = StopType.delivery ∧ st.shipment_id = s.sid))).length = 1 := by
  have count1 : (pool.map Ship.sid).count s.sid = 1 :=
    List.count_eq_one_of_mem hnd (List.mem_map_of_mem Ship.sid hs)
  have hP := countP_poolPickups pool s.sid
  have hD := countP_poolDeliveries pool s.sid
  have permP := sorted_pickups_perm pool
  have permD := sorted_deliveries_perm pool
  refine ⟨rfl, ?_, ?_, permP, permD, ?_, ?_, ?_⟩
  · have h := @List.sorted_mergeSort Stop
      (fun a b => decide (pickupKey pool a ≤ pickupKey pool b))
      (fun a b c hab hbc => by
        simp only [decide_eq_true_eq] at hab hbc ⊢; exact le_trans hab hbc)
      (fun a b => by
        simp only [Bool.or_eq_true, decide_eq_true_eq]; exact le_total _ _)
      (poolPickups pool)
    exact h.imp (fun hab => by simpa using hab)
  · intro lp hlp
    unfold sorted_deliveries
    cases hcase : (sorted_pickups pool).getLast? with
    | none => rw [hcase] at hlp; cases hlp
    | some lp' =>
      rw [hcase] at hlp
      cases hlp
      have h := @List.sorted_mergeSort Stop
        (fun a b => decide (deliveryKey lp a ≤ deliveryKey lp b))
        (fun a b c hab hbc => by
          simp only [decide_eq_true_eq] at hab hbc ⊢; exact le_trans hab hbc)
        (fun a b => by
          simp only [Bool.or_eq_true, decide_eq_true_eq]; exact le_total _ _)
        (poolDeliveries pool)
      exact h.imp (fun hab => by simpa using hab)
  · rw [← List.countP_eq_length_filter]
    unfold ordered_stops
    rw [List.countP_append, permP.countP_eq, permD.countP_eq, hP, hD, count1]
  · rw [← List.countP_eq_length_filter]
    unfold ordered_stops
    rw [List.countP_append]
    have hzero : (sorted_deliveries pool).countP
        (fun st => decide (st.type = StopType.pickup ∧ st.shipment_id = s.sid)) = 0 := by
      rw [List.countP_eq_zero]
      intro st hst
      have := mem_poolDeliveries_type (permD.mem_iff.mp hst)
      simp [this]
    have hsame : (sorted_pickups pool).countP
        (fun st => decide (st.type = StopType.pickup ∧ st.shipment_id = s.sid)) =
        (sorted_pickups pool).countP (fun st => decide (st.shipment_id = s.sid)) := by
      apply List.countP_congr
      intro st hst
      have := mem_poolPickups_type (permP.mem_iff.mp hst)
      simp [this]
    rw [hzero, hsame, permP.countP_eq, hP, count1]
  · rw [← List.countP_eq_length_filter]
    unfold ordered_stops
    rw [List.countP_append]
    have hzero : (sorted_pickups pool).countP
        (fun st => decide (st.type = StopType.delivery ∧ st.shipment_id = s.sid)) = 0 := by
      rw [List.countP_eq_zero]
      intro st hst
      have := mem_poolPickups_type (permP.mem_iff.mp hst)
      simp [this]
    have hsame : (sorted_deliveries pool).countP
        (fun st => decide (st.type = StopType.delivery ∧ st.shipment_id = s.sid)) =
        (sorted_deliveries pool).countP (fun st => decide (st.shipment_id = s.sid)) := by
      apply List.countP_congr
      intro st hst
      have := mem_poolDeliveries_type (permD.mem_iff.mp hst)
      simp [this]
    rw [hzero, hsame, permD.countP_eq, hD, count1]

/-- C7 witness: concrete evaluation — each shipment of the 2-shipment pool
contributes exactly two stops to the sequence. -/
theorem C7_route_sequencer_witness :
    ((ordered_stops c7pool).filter
      (fun st => decide (st.shipment_id = "SHIP_001"))).length = 2 :=
  (C7_route_sequencer c7pool (by decide) ⟨"SHIP_001", 0, 0, 5, 5, 10⟩
    (by decide)).2.2.2.2.2.1

/-! ## Claim C6 -/

/-- C6 (amended): a leg with no path is excluded from the distance/time totals
while every other leg still contributes, one route coordinate is still emitted
per stop (the pool's result is produced, never aborted) — but the missing leg
is silently skipped: no warning is recorded and nothing in the result marks
the stop pair unreachable. -/
theorem C6_unreachable_leg_skipped (near : Stop → ℕ)
    (finder : ℕ → ℕ → Option (List ℕ)) (edges : ℕ → ℕ → List EdgeInfo)
    (stops : List Stop) (i : ℕ) :
    (process_stops near finder edges stops i).2.2.2 = [] ∧
    (process_stops near finder edges stops i).1.length = stops.length ∧
    (process_stops near finder edges stops i).2.1 =
      reachable_leg_sum near finder edges PathStats.travel_time stops ∧
    (process_stops near finder edges stops i).2.2.1 =
      reachable_leg_sum near finder edges PathStats.distance stops := by
  induction stops generalizing i with
  | nil => simp [process_stops, reachable_leg_sum]
  | cons a rest ih =>
    cases rest with
    | nil => simp [process_stops, reachable_leg_sum]
    | cons b rest' =>
      have h := ih (i + 1)
      cases hf : finder (near a) (near b) with
      | none =>
        refine ⟨?_, ?_, ?_, ?_⟩ <;>
          simp [process_stops, reachable_leg_sum, hf, h.1, h.2.1, h.2.2.1, h.2.2.2,
            reachable_leg_sum] at h ⊢ <;> tauto
      | some p =>
        refine ⟨?_, ?_, ?_, ?_⟩ <;>
          simp [process_stops, reachable_leg_sum, hf, h.1, h.2.1, h.2.2.1, h.2.2.2,
            reachable_leg_sum] at h ⊢ <;> tauto

/-- C6 counterexample: with the only leg unreachable, the pool result is still
produced — two route coordinates, totals zero (the leg is excluded) — but
contrary to the claim no warning-level diagnostic is recorded (the warning
list is empty) and the result record carries no unreachable marker: it is
exactly the record of a pool whose legs were never attempted. -/
theorem C6_counterexample :
    (process_stops c6near (fun _ _ => none) (fun _ _ => [])
        (ordered_stops c6pool) 0).2.2.2 = [] ∧
    c6result.num_stops = 2 ∧
    c6result.total_travel_time_minutes = 0 ∧
    c6result.total_distance_km = 0 ∧
    c6result.route_coordinates =
      [⟨0, StopType.pickup, "SHIP_001", 0⟩, ⟨1, StopType.delivery, "SHIP_001", 1⟩] := by
  refine ⟨?_, ?_, ?_, ?_, ?_⟩ <;>
    (norm_num [c6result, mkPoolResult, c6pool, c6near, ordered_stops, sorted_pickups,
      sorted_deliveries, poolPickups, poolDeliveries, isPickupStop, isDeliveryStop,
      mkStops, mean, pickup_center, process_stops, pyRound2, pyRoundInt,
      efficiency_score, List.filter]; try decide)

/-! ## Claim C8 -/

/-- C8 counterexample: at 30 minutes of travel (positive, so the claim's
zero-guard should not apply), the code floors the denominator to a full hour
and reports 1 shipment/hour, while the claim's formula
`shipment_count / (travel_time / 60)` gives 2. -/
theorem C8_counterexample :
    efficiency_score 1 30 = 1 ∧
    (1 : ℚ) / ((30 : ℚ) / 60) = 2 ∧
    pyRound2 ((1 : ℚ) / ((30 : ℚ) / 60)) = 2 := by
  refine ⟨?_, by norm_num, ?_⟩ <;>
    norm_num [efficiency_score, pyRound2, pyRoundInt]

/-- C8 (amended): the efficiency score is
`round(shipment_count / max(1, travel_time_minutes / 60), 2)` — the
denominator is floored at one hour-equivalent whenever the travel time is
below 60 minutes (not only at zero), so the score is always defined and the
claim's formula is only attained for travel times of at least an hour; the
run-level report contains the mean shipments per pool and the mean efficiency
score across pools. -/
theorem C8_efficiency_and_report (n : ℕ) (t : ℚ) (_ht : 0 ≤ t)
    (rs : List PoolRouteResult) :
    efficiency_score n t = pyRound2 ((n : ℚ) / max 1 (t / 60)) ∧
    (60 ≤ t → efficiency_score n t = pyRound2 ((n : ℚ) / (t / 60))) ∧
    (t < 60 → efficiency_score n t = pyRound2 (n : ℚ)) ∧
    (summary_statistics rs).average_shipments_per_pool =
      mean (rs.map (fun r => (r.num_shipments : ℚ))) ∧
    (summary_statistics rs).average_efficiency_score =
      mean (rs.map PoolRouteResult.efficiency_score) := by
  refine ⟨rfl, ?_, ?_, rfl, rfl⟩
  · intro h60
    have hmax : max (1 : ℚ) (t / 60) = t / 60 := by
      apply max_eq_right
      rw [le_div_iff₀ (by norm_num : (0 : ℚ) < 60)]
      linarith
    simp [efficiency_score, hmax]
  · intro h60
    have hmax : max (1 : ℚ) (t / 60) = 1 := by
      apply max_eq_left
      rw [div_le_one (by norm_num : (0 : ℚ) < 60)]
      linarith
    simp [efficiency_score, hmax]

/-- C8 witness: with two shipments and a two-hour route the code agrees with
the claim's formula. -/
theorem C8_efficiency_and_report_witness :
    efficiency_score 2 120 = pyRound2 ((2 : ℚ) / ((120 : ℚ) / 60)) :=
  ((C8_efficiency_and_report 2 120 (by norm_num) []).2.1) (by norm_num)

/-! ### Minimum-weight edge selection -/

theorem foldl_min_mem (w : ℚ) (ws : List ℚ) : ws.foldl min w ∈ w :: ws := by
  induction ws generalizing w with
  | nil => simp
  | cons a as ih =>
    simp only [List.foldl_cons]
    rcases List.mem_cons.mp (ih (min w a)) with h1 | h1
    · rw [h1]
      rcases min_choice w a with hm | hm
      · rw [hm]
        exact List.mem_cons_self _ _
      · rw [hm]
        exact List.mem_cons_of_mem _ (List.mem_cons_self _ _)
    · exact List.mem_cons_of_mem _ (List.mem_cons_of_mem _ h1)

theorem foldl_min_le (w : ℚ) (ws : List ℚ) : ∀ x ∈ w :: ws, ws.foldl min w ≤ x := by
  induction ws generalizing w with
  | nil =>
    intro x hx
    simp only [List.mem_singleton] at hx
    simp [hx]
  | cons a as ih =>
    intro x hx
    simp only [List.foldl_cons]
    have hhead := ih (min w a) (min w a) (List.mem_cons_self _ _)
    rcases List.mem_cons.mp hx with hx | hx
    · refine le_trans hhead ?_
      rw [hx]
      exact min_le_left w a
    · rcases List.mem_cons.mp hx with hx | hx
      · refine le_trans hhead ?_
        rw [hx]
        exact min_le_right w a
      · exact ih (min w a) x (List.mem_cons_of_mem _ hx)

theorem mem_pweights {G : RoadGraph} {u v : ℕ} {x : ℚ} :
    x ∈ pweights G u v ↔ ∃ e ∈ G, e.src = u ∧ e.dst = v ∧ e.w = x := by
  unfold pweights
  rw [List.mem_filterMap]
  constructor
  · rintro ⟨e, he, hx⟩
    by_cases hcond : e.src = u ∧ e.dst = v
    · rw [if_pos hcond] at hx
      exact ⟨e, he, hcond.1, hcond.2, Option.some_injective _ hx⟩
    · rw [if_neg hcond] at hx
      cases hx
  · rintro ⟨e, he, h1, h2, h3⟩
    exact ⟨e, he, by rw [if_pos ⟨h1, h2⟩, h3]⟩

theorem minW_mem {G : RoadGraph} {u v : ℕ} {w : ℚ} (h : minW G u v = some w) :
    w ∈ pweights G u v := by
  unfold minW at h
  cases hpw : pweights G u v with
  | nil => rw [hpw] at h; cases h
  | cons a as =>
    rw [hpw] at h
    have h' : List.foldl min a as = w := by injection h
    rw [← h']
    exact foldl_min_mem a as

theorem minW_le {G : RoadGraph} {u v : ℕ} {w : ℚ} (h : minW G u v = some w) :
    ∀ x ∈ pweights G u v, w ≤ x := by
  unfold minW at h
  cases hpw : pweights G u v with
  | nil => simp [hpw]
  | cons a as =>
    rw [hpw] at h
    have h' : List.foldl min a as = w := by injection h
    intro x hx
    rw [← h']
    exact foldl_min_le a as x hx

theorem minW_isSome_iff {G : RoadGraph} {u v : ℕ} :
    (minW G u v).isSome ↔ pweights G u v ≠ [] := by
  unfold minW
  cases pweights G u v <;> simp

theorem minW_nonneg {G : RoadGraph} (hw : ∀ e ∈ G, 0 ≤ e.w) {u v : ℕ} {w : ℚ}
    (h : minW G u v = some w) : 0 ≤ w := by
  obtain ⟨e, he, _, _, hew⟩ := mem_pweights.mp (minW_mem h)
  rw [← hew]
  exact hw e he

theorem minW_getD_nonneg {G : RoadGraph} (hw : ∀ e ∈ G, 0 ≤ e.w) (u v : ℕ) :
    0 ≤ (minW G u v).getD 0 := by
  cases h : minW G u v with
  | none => simp
  | some w => simpa using minW_nonneg hw h

/-! ### Walk structure -/

theorem isWalk_singleton (G : RoadGraph) (s : ℕ) : IsWalk G s s [s] :=
  ⟨by simp, rfl, rfl, by simp⟩

theorem isWalk_single {G : RoadGraph} {s t x : ℕ} (h : IsWalk G s t [x]) :
    x = s ∧ s = t := by
  obtain ⟨-, hh, hl, -⟩ := h
  simp only [List.head?_cons, Option.some_inj] at hh
  simp only [List.getLast?_singleton, Option.some_inj] at hl
  exact ⟨hh, by rw [← hh, hl]⟩

theorem isWalk_snoc {G : RoadGraph} {s u v : ℕ} {q : List ℕ}
    (h : IsWalk G s u q) (he : (minW G u v).isSome) : IsWalk G s v (q ++ [v]) := by
  obtain ⟨hne, hh, hl, hc⟩ := h
  refine ⟨by simp, ?_, List.getLast?_concat q, ?_⟩
  · rw [List.head?_append_of_ne_nil q hne]
    exact hh
  · rw [List.chain'_append]
    refine ⟨hc, by simp, ?_⟩
    intro x hx y hy
    simp only [List.head?_cons, Option.mem_def, Option.some_inj] at hy
    rw [hl] at hx
    simp only [Option.mem_def, Option.some_inj] at hx
    rw [hx, hy] at he
    exact he

theorem wcost_snoc (G : RoadGraph) {q : List ℕ} {u : ℕ} (v : ℕ)
    (hq : q.getLast? = some u) :
    wcost G (q ++ [v]) = wcost G q + (minW G u v).getD 0 := by
  induction q with
  | nil => cases hq
  | cons x xs ih =>
    cases xs with
    | nil =>
      simp only [List.getLast?_singleton, Option.some_inj] at hq
      rw [hq]
      simp [wcost]
    | cons y ys =>
      have hq' : (y :: ys).getLast? = some u := by
        rwa [List.getLast?_cons_cons] at hq
      have hih := ih hq'
      simp only [List.cons_append, List.append_eq, wcost] at hih ⊢
      rw [hih]
      ring

theorem isWalk_decompose {G : RoadGraph} {s t : ℕ} {p : List ℕ}
    (h : IsWalk G s t p) (hlen : 2 ≤ p.length) :
    ∃ q u, p = q ++ [t] ∧ IsWalk G s u q ∧ (minW G u t).isSome ∧
      q.getLast? = some u ∧ q.length + 1 = p.length := by
  obtain ⟨hne, hh, hl, hc⟩ := h
  have hq : p.dropLast ++ [p.getLast hne] = p := List.dropLast_append_getLast hne
  have hlast : p.getLast hne = t := by
    have := List.getLast?_eq_getLast p hne
    rw [hl] at this
    exact (Option.some_inj.mp this).symm
  set q := p.dropLast with hqdef
  have hqne : q ≠ [] := by
    have : q.length = p.length - 1 := List.length_dropLast p
    intro hq0
    rw [hq0] at this
    simp at this
    omega
  have hu := List.getLast?_eq_getLast q hqne
  set u := q.getLast hqne with hudef
  have hpq : p = q ++ [t] := by rw [← hlast, hq]
  have hchain : q.Chain' (fun a b => (minW G a b).isSome) ∧
      ∀ x ∈ q.getLast?, ∀ y ∈ ([t] : List ℕ).head?, (minW G x y).isSome := by
    rw [hpq, List.chain'_append] at hc
    exact ⟨hc.1, hc.2.2⟩
  have hstep : (minW G u t).isSome := by
    refine hchain.2 u ?_ t ?_
    · rw [hu]; rfl
    · rfl
  refine ⟨q, u, hpq, ⟨hqne, ?_, hu, hchain.1⟩, hstep, hu, ?_⟩
  · rw [hpq, List.head?_append_of_ne_nil q hqne] at hh
    exact hh
  · rw [hpq]
    simp

/-! ### Walk nodes live in the node universe -/

theorem s_mem_nodesOf (G : RoadGraph) (s : ℕ) : s ∈ nodesOf G s := by
  unfold nodesOf
  rw [List.mem_dedup]
  exact List.mem_cons_self _ _

theorem mem_nodesOf_src {G : RoadGraph} {s u v : ℕ} (h : (minW G u v).isSome) :
    u ∈ nodesOf G s := by
  rw [minW_isSome_iff] at h
  obtain ⟨x, hx⟩ := List.exists_mem_of_ne_nil _ h
  obtain ⟨e, he, h1, h2, -⟩ := mem_pweights.mp hx
  unfold nodesOf
  rw [List.mem_dedup]
  refine List.mem_cons_of_mem _ ?_
  rw [List.mem_flatMap]
  exact ⟨e, he, by simp [h1]⟩

theorem mem_nodesOf_dst {G : RoadGraph} {s u v : ℕ} (h : (minW G u v).isSome) :
    v ∈ nodesOf G s := by
  rw [minW_isSome_iff] at h
  obtain ⟨x, hx⟩ := List.exists_mem_of_ne_nil _ h
  obtain ⟨e, he, h1, h2, -⟩ := mem_pweights.mp hx
  unfold nodesOf
  rw [List.mem_dedup]
  refine List.mem_cons_of_mem _ ?_
  rw [List.mem_flatMap]
  exact ⟨e, he, by simp [h2]⟩

theorem chain_nodes_mem {G : RoadGraph} {s : ℕ} :
    ∀ (l : List ℕ) (a : ℕ), a ∈ nodesOf G s →
      List.Chain' (fun x y => (minW G x y).isSome) (a :: l) →
      ∀ x ∈ a :: l, x ∈ nodesOf G s := by
  intro l
  induction l with
  | nil =>
    intro a ha _ x hx
    simp only [List.mem_singleton] at hx
    rwa [hx]
  | cons b l' ih =>
    intro a ha hc x hx
    have hab : (minW G a b).isSome := (List.chain'_cons.mp hc).1
    have hb : b ∈ nodesOf G s := mem_nodesOf_dst hab
    rcases List.mem_cons.mp hx with rfl | hx
    · exact ha
    · exact ih b hb (List.chain'_cons.mp hc).2 x hx

theorem walk_nodes_subset {G : RoadGraph} {s t : ℕ} {p : List ℕ}
    (h : IsWalk G s t p) : ∀ x ∈ p, x ∈ nodesOf G s := by
  obtain ⟨hne, hh, -, hc⟩ := h
  cases p with
  | nil => exact absurd rfl hne
  | cons a l =>
    have ha : a = s := by simpa using hh
    subst ha
    exact chain_nodes_mem l a (s_mem_nodesOf G a) hc

theorem nodup_walk_length {G : RoadGraph} {s t : ℕ} {p : List ℕ}
    (h : IsWalk G s t p) (hnd : p.Nodup) : p.length ≤ (nodesOf G s).length :=
  (List.subperm_of_subset hnd (fun x hx => walk_nodes_subset h x hx)).length_le

/-! ### Cost arithmetic and cycle removal -/

theorem wcost_nonneg {G : RoadGraph} (hw : ∀ e ∈ G, 0 ≤ e.w) (p : List ℕ) :
    0 ≤ wcost G p := by
  induction p with
  | nil => simp [wcost]
  | cons u rest ih =>
    cases rest with
    | nil => simp [wcost]
    | cons v rest' =>
      simp only [wcost]
      exact add_nonneg (minW_getD_nonneg hw u v) ih

theorem wcost_append (G : RoadGraph) (l : List ℕ) (a : ℕ) (r : List ℕ) :
    wcost G (l ++ a :: r) = wcost G (l ++ [a]) + wcost G (a :: r) := by
  induction l with
  | nil => simp [wcost]
  | cons x xs ih =>
    cases xs with
    | nil => simp [wcost]
    | cons y ys =>
      simp only [List.cons_append, List.append_eq, wcost] at ih ⊢
      rw [ih]
      ring

theorem exists_dup_split {l : List ℕ} (h : ¬ l.Nodup) :
    ∃ xs a ys zs, l = xs ++ a :: ys ++ a :: zs := by
  induction l with
  | nil => exact absurd List.nodup_nil h
  | cons b rest ih =>
    by_cases hb : b ∈ rest
    · obtain ⟨ys, zs, hyz⟩ := List.append_of_mem hb
      exact ⟨[], b, ys, zs, by rw [hyz]; rfl⟩
    · have hrest : ¬ rest.Nodup := fun hnd => h (List.nodup_cons.mpr ⟨hb, hnd⟩)
      obtain ⟨xs, a, ys, zs, rfl⟩ := ih hrest
      exact ⟨b :: xs, a, ys, zs, rfl⟩

theorem walk_splice {G : RoadGraph} {s t : ℕ} (xs : List ℕ) (a : ℕ) (ys zs : List ℕ)
    (h : IsWalk G s t (xs ++ a :: ys ++ a :: zs)) : IsWalk G s t (xs ++ a :: zs) := by
  obtain ⟨hne, hh, hl, hc⟩ := h
  refine ⟨by simp, ?_, ?_, ?_⟩
  · cases xs with
    | nil =>
      simp only [List.nil_append] at hh ⊢
      rw [List.head?_append_of_ne_nil _ (by simp : (a :: ys : List ℕ) ≠ [])] at hh
      simpa using hh
    | cons x xs' =>
      simp only [List.cons_append, List.head?_cons] at hh ⊢
      exact hh
  · have hw := List.getLast?_eq_getLast (a :: zs) (by simp)
    rw [List.getLast?_append, hw] at hl
    rw [List.getLast?_append, hw]
    simpa using hl
  · rw [List.chain'_append] at hc
    obtain ⟨c12, c3, link2⟩ := hc
    rw [List.chain'_append] at c12
    obtain ⟨c1, c2, link1⟩ := c12
    rw [List.chain'_append]
    refine ⟨c1, c3, ?_⟩
    intro x hx y hy
    refine link1 x hx y ?_
    simp only [List.head?_cons, Option.mem_def, Option.some_inj] at hy ⊢
    exact hy

theorem wcost_splice_le {G : RoadGraph} (hw : ∀ e ∈ G, 0 ≤ e.w)
    (xs : List ℕ) (a : ℕ) (ys zs : List ℕ) :
    wcost G (xs ++ a :: zs) ≤ wcost G (xs ++ a :: ys ++ a :: zs) := by
  have hps : (xs ++ a :: ys ++ a :: zs : List ℕ) = xs ++ a :: (ys ++ a :: zs) := by simp
  rw [hps, wcost_append G xs a (ys ++ a :: zs), wcost_append G xs a zs]
  have h2 : wcost G (a :: (ys ++ a :: zs)) =
      wcost G ((a :: ys) ++ [a]) + wcost G (a :: zs) := by
    have h := wcost_append G (a :: ys) a zs
    rw [show ((a :: ys) ++ a :: zs : List ℕ) = a :: (ys ++ a :: zs) by simp] at h
    exact h
  rw [h2]
  have h3 := wcost_nonneg hw ((a :: ys) ++ [a])
  linarith

theorem walk_shorten {G : RoadGraph} (hw : ∀ e ∈ G, 0 ≤ e.w) {s t : ℕ} :
    ∀ (n : ℕ) (p : List ℕ), p.length ≤ n → IsWalk G s t p →
      ∃ q, IsWalk G s t q ∧ q.Nodup ∧ wcost G q ≤ wcost G p := by
  intro n
  induction n with
  | zero =>
    intro p hp hwalk
    obtain ⟨hne, -, -, -⟩ := hwalk
    cases p with
    | nil => exact absurd rfl hne
    | cons a l => simp at hp
  | succ n ih =>
    intro p hp hwalk
    by_cases hnd : p.Nodup
    · exact ⟨p, hwalk, hnd, le_refl _⟩
    · obtain ⟨xs, a, ys, zs, rfl⟩ := exists_dup_split hnd
      have hwalk' := walk_splice xs a ys zs hwalk
      have hcost := wcost_splice_le hw xs a ys zs
      have hlen : (xs ++ a :: zs).length ≤ n := by
        simp only [List.length_append, List.length_cons] at hp ⊢
        omega
      obtain ⟨q, hq1, hq2, hq3⟩ := ih _ hlen hwalk'
      exact ⟨q, hq1, hq2, le_trans hq3 hcost⟩

/-! ### Relaxation machinery -/

theorem betterEntry_eq_true {cand cur : ℚ × List ℕ} :
    betterEntry cand cur = true ↔
      cand.1 < cur.1 ∨ (cand.1 = cur.1 ∧ lexLt cand.2 cur.2 = true) := by
  unfold betterEntry
  by_cases h1 : cand.1 < cur.1
  · simp [h1]
  · by_cases h2 : cand.1 = cur.1
    · simp [h1, h2]
    · simp [h1, h2]

theorem mergeEntry_none (cand : ℚ × List ℕ) : mergeEntry none cand = some cand := rfl

theorem mergeEntry_some (c0 cand : ℚ × List ℕ) :
    mergeEntry (some c0) cand =
      if betterEntry cand c0 = true then some cand else some c0 := rfl

theorem mergeEntry_isSome (cur : Entry) (cand : ℚ × List ℕ) :
    (mergeEntry cur cand).isSome := by
  cases cur with
  | none => rfl
  | some c =>
    rw [mergeEntry_some]
    by_cases hb : betterEntry cand c = true
    · rw [if_pos hb]
      rfl
    · rw [if_neg hb]
      rfl

theorem mergeEntry_cases (cur : Entry) (cand : ℚ × List ℕ) :
    mergeEntry cur cand = some cand ∨ mergeEntry cur cand = cur := by
  cases cur with
  | none => exact Or.inl rfl
  | some c =>
    rw [mergeEntry_some]
    by_cases hb : betterEntry cand c = true
    · rw [if_pos hb]
      exact Or.inl rfl
    · rw [if_neg hb]
      exact Or.inr rfl

theorem foldl_mergeEntry_isSome (cands : List (ℚ × List ℕ)) :
    ∀ cur : Entry, cur.isSome ∨ cands ≠ [] → (cands.foldl mergeEntry cur).isSome := by
  induction cands with
  | nil =>
    intro cur h
    rcases h with h | h
    · exact h
    · exact absurd rfl h
  | cons a as ih =>
    intro cur _
    simp only [List.foldl_cons]
    exact ih (mergeEntry cur a) (Or.inl (mergeEntry_isSome cur a))

theorem foldl_mergeEntry_source (cands : List (ℚ × List ℕ)) :
    ∀ cur : Entry, cands.foldl mergeEntry cur = cur ∨
      ∃ cd ∈ cands, cands.foldl mergeEntry cur = some cd := by
  induction cands with
  | nil => exact fun cur => Or.inl rfl
  | cons a as ih =>
    intro cur
    simp only [List.foldl_cons]
    rcases ih (mergeEntry cur a) with h | h
    · rcases mergeEntry_cases cur a with hc | hc
      · exact Or.inr ⟨a, List.mem_cons_self _ _, h.trans hc⟩
      · exact Or.inl (h.trans hc)
    · obtain ⟨cd, hcd, hfold⟩ := h
      exact Or.inr ⟨cd, List.mem_cons_of_mem _ hcd, hfold⟩

theorem mergeEntry_fst_le (cur : Entry) (cand : ℚ × List ℕ) (c : ℚ) (p : List ℕ)
    (h : mergeEntry cur cand = some (c, p)) :
    c ≤ cand.1 ∧ ∀ c0 p0, cur = some (c0, p0) → c ≤ c0 := by
  cases cur with
  | none =>
    rw [mergeEntry_none] at h
    injection h with h
    subst h
    exact ⟨le_refl c, fun c0 p0 h0 => nomatch h0⟩
  | some c0p0 =>
    obtain ⟨c0', p0'⟩ := c0p0
    rw [mergeEntry_some] at h
    by_cases hb : betterEntry cand (c0', p0') = true
    · rw [if_pos hb] at h
      injection h with h
      subst h
      rw [betterEntry_eq_true] at hb
      have hle : c ≤ c0' := by
        rcases hb with hb | hb
        · exact le_of_lt hb
        · exact le_of_eq hb.1
      refine ⟨le_refl c, ?_⟩
      intro c0 p0 h0
      cases h0
      exact hle
    · rw [if_neg hb] at h
      injection h with h
      rw [betterEntry_eq_true] at hb
      simp only [not_or] at hb
      have hcc : c0' = c := congrArg Prod.fst h
      have hle : c0' ≤ cand.1 := le_of_not_lt hb.1
      refine ⟨by rw [← hcc]; exact hle, ?_⟩
      intro c0 p0 h0
      cases h0
      exact le_of_eq hcc.symm

theorem foldl_mergeEntry_le (cands : List (ℚ × List ℕ)) :
    ∀ (cur : Entry) (c : ℚ) (p : List ℕ),
      cands.foldl mergeEntry cur = some (c, p) →
      (∀ c0 p0, cur = some (c0, p0) → c ≤ c0) ∧ ∀ cd ∈ cands, c ≤ cd.1 := by
  induction cands with
  | nil =>
    intro cur c p h
    simp only [List.foldl_nil] at h
    refine ⟨?_, by simp⟩
    intro c0 p0 h0
    rw [h0] at h
    injection h with h
    injection h with ha hb
    rw [ha]
  | cons a as ih =>
    intro cur c p h
    simp only [List.foldl_cons] at h
    obtain ⟨hcur', hmem⟩ := ih (mergeEntry cur a) c p h
    obtain ⟨⟨cm, pm⟩, hcm⟩ := Option.isSome_iff_exists.mp (mergeEntry_isSome cur a)
    have hc_le_cm : c ≤ cm := hcur' cm pm hcm
    obtain ⟨hm1, hm2⟩ := mergeEntry_fst_le cur a cm pm hcm
    constructor
    · intro c0 p0 h0
      exact le_trans hc_le_cm (hm2 c0 p0 h0)
    · intro cd hcd
      rcases List.mem_cons.mp hcd with rfl | hcd
      · exact le_trans hc_le_cm hm1
      · exact hmem cd hcd

theorem mem_candidates {G : RoadGraph} {dist : List (ℕ × Entry)} {v : ℕ}
    {cd : ℚ × List ℕ} :
    cd ∈ candidates G dist v ↔
      ∃ u du pu w, (u, some (du, pu)) ∈ dist ∧ minW G u v = some w ∧
        cd = (du + w, pu ++ [v]) := by
  unfold candidates
  rw [List.mem_filterMap]
  constructor
  · rintro ⟨⟨u, eu⟩, hmem, hcd⟩
    cases eu with
    | none => simp at hcd
    | some dp =>
      obtain ⟨du, pu⟩ := dp
      cases hminw : minW G u v with
      | none =>
        rw [hminw] at hcd
        simp at hcd
      | some w =>
        rw [hminw] at hcd
        injection hcd with hcd
        exact ⟨u, du, pu, w, hmem, hminw, hcd.symm⟩
  · rintro ⟨u, du, pu, w, hmem, hminw, rfl⟩
    exact ⟨(u, some (du, pu)), hmem, by rw [hminw]⟩

theorem walk_length_one {G : RoadGraph} {s t : ℕ} {q : List ℕ}
    (hq : IsWalk G s t q) (hlen : q.length ≤ 1) : q = [s] ∧ s = t := by
  cases q with
  | nil => exact absurd rfl hq.1
  | cons x l =>
    cases l with
    | nil =>
      obtain ⟨hx, hst⟩ := isWalk_single hq
      exact ⟨by rw [hx], hst⟩
    | cons y l' => simp at hlen

theorem initDist_ok (G : RoadGraph) (s : ℕ) : StateOk G s 0 (initDist G s) := by
  constructor
  · unfold initDist
    rw [List.map_map]
    have hid : (Prod.fst ∘ fun v : ℕ =>
        ((v, if v = s then some ((0 : ℚ), [s]) else none) : ℕ × Entry)) = id := by
      funext v
      rfl
    rw [hid, List.map_id]
  · intro ve hve
    unfold initDist at hve
    rw [List.mem_map] at hve
    obtain ⟨v, hv, rfl⟩ := hve
    dsimp only
    by_cases hvs : v = s
    · subst hvs
      simp only [if_pos rfl]
      simp only [EntryOk]
      refine ⟨isWalk_singleton G v, by simp, by simp [wcost], ?_⟩
      intro q hq hlen
      obtain ⟨hq1, -⟩ := walk_length_one hq hlen
      rw [hq1]
      simp [wcost]
    · rw [if_neg hvs]
      simp only [EntryOk]
      intro p hp hlen
      obtain ⟨-, hst⟩ := walk_length_one hp hlen
      exact hvs hst.symm

theorem exists_entry_of_mem_keys {G : RoadGraph} {dist : List (ℕ × Entry)} {s u : ℕ}
    (hfst : dist.map Prod.fst = nodesOf G s) (hu : u ∈ nodesOf G s) :
    ∃ eu, (u, eu) ∈ dist := by
  rw [← hfst, List.mem_map] at hu
  obtain ⟨⟨u', eu⟩, hmem, heq⟩ := hu
  exact ⟨eu, by rwa [show u' = u from heq] at hmem⟩

theorem relaxNode_ok (G : RoadGraph) (s k v : ℕ) (cur : Entry)
    (dist : List (ℕ × Entry))
    (hfst : dist.map Prod.fst = nodesOf G s)
    (hent : ∀ ve ∈ dist, EntryOk G s k ve.1 ve.2)
    (hcur : EntryOk G s k v cur) :
    EntryOk G s (k + 1) v (relaxNode G dist v cur) := by
  cases hres : relaxNode G dist v cur with
  | none =>
    have hcnone : cur = none := by
      cases hcn : cur with
      | none => rfl
      | some c =>
        have h1 : (relaxNode G dist v cur).isSome :=
          foldl_mergeEntry_isSome _ cur (Or.inl (by rw [hcn]; rfl))
        rw [hres] at h1
        cases h1
    have hcands : candidates G dist v = [] := by
      by_contra hc
      have h1 : (relaxNode G dist v cur).isSome :=
        foldl_mergeEntry_isSome _ cur (Or.inr hc)
      rw [hres] at h1
      cases h1
    simp only [EntryOk]
    intro p hp hlen
    by_cases hsmall : p.length ≤ k + 1
    · rw [hcnone] at hcur
      simp only [EntryOk] at hcur
      exact hcur p hp hsmall
    · have h2 : 2 ≤ p.length := by omega
      obtain ⟨q, u, hpq, hq, hstep, hql, hqlen⟩ := isWalk_decompose hp h2
      obtain ⟨eu, heu⟩ :=
        exists_entry_of_mem_keys hfst (mem_nodesOf_src (s := s) hstep)
      cases eu with
      | none =>
        have h3 := hent (u, none) heu
        simp only [EntryOk] at h3
        exact h3 q hq (by omega)
      | some dp =>
        obtain ⟨du, pu⟩ := dp
        obtain ⟨w, hw⟩ := Option.isSome_iff_exists.mp hstep
        have hmem : ((du + w, pu ++ [v]) : ℚ × List ℕ) ∈ candidates G dist v :=
          mem_candidates.mpr ⟨u, du, pu, w, heu, hw, rfl⟩
        rw [hcands] at hmem
        cases hmem
  | some cp =>
    obtain ⟨c, pth⟩ := cp
    have hres' : (candidates G dist v).foldl mergeEntry cur = some (c, pth) := hres
    have hle := foldl_mergeEntry_le (candidates G dist v) cur c pth hres'
    have hsource := foldl_mergeEntry_source (candidates G dist v) cur
    rw [hres'] at hsource
    simp only [EntryOk]
    have hmain : IsWalk G s v pth ∧ pth.length ≤ k + 1 + 1 ∧ wcost G pth = c := by
      rcases hsource with hsrc | hsrc
      · rw [← hsrc] at hcur
        simp only [EntryOk] at hcur
        exact ⟨hcur.1, by omega, hcur.2.2.1⟩
      · obtain ⟨cd, hcd, hcdeq⟩ := hsrc
        injection hcdeq with hcdeq
        rw [← hcdeq] at hcd
        obtain ⟨u, du, pu, w, heu, hw, hpair⟩ := mem_candidates.mp hcd
        injection hpair with hp1 hp2
        have h3 := hent (u, some (du, pu)) heu
        simp only [EntryOk] at h3
        obtain ⟨hwu, hlu, hcu, -⟩ := h3
        have hwalk : IsWalk G s v (pu ++ [v]) :=
          isWalk_snoc hwu (by rw [hw]; rfl)
        have hcost : wcost G (pu ++ [v]) = du + w := by
          rw [wcost_snoc G v hwu.2.2.1, hcu, hw]
          rfl
        refine ⟨by rw [hp2]; exact hwalk, ?_, by rw [hp2, hcost, hp1]⟩
        rw [hp2]
        simp only [List.length_append, List.length_singleton]
        omega
    refine ⟨hmain.1, hmain.2.1, hmain.2.2, ?_⟩
    intro q hq hlen
    by_cases hsmall : q.length ≤ k + 1
    · cases hcn : cur with
      | none =>
        rw [hcn] at hcur
        simp only [EntryOk] at hcur
        exact absurd hsmall (hcur q hq)
      | some c0p0 =>
        obtain ⟨c0, p0⟩ := c0p0
        rw [hcn] at hcur
        simp only [EntryOk] at hcur
        exact le_trans (hle.1 c0 p0 hcn) (hcur.2.2.2 q hq hsmall)
    · have h2 : 2 ≤ q.length := by omega
      obtain ⟨q0, u', hqq, hq0, hstep, hq0l, hq0len⟩ := isWalk_decompose hq h2
      obtain ⟨eu, heu⟩ :=
        exists_entry_of_mem_keys hfst (mem_nodesOf_src (s := s) hstep)
      cases eu with
      | none =>
        have h3 := hent (u', none) heu
        simp only [EntryOk] at h3
        exact absurd (by omega : q0.length ≤ k + 1) (h3 q0 hq0)
      | some dp =>
        obtain ⟨du', pu'⟩ := dp
        obtain ⟨w', hw'⟩ := Option.isSome_iff_exists.mp hstep
        have hcand : ((du' + w', pu' ++ [v]) : ℚ × List ℕ) ∈ candidates G dist v :=
          mem_candidates.mpr ⟨u', du', pu', w', heu, hw', rfl⟩
        have hcle : c ≤ du' + w' := hle.2 _ hcand
        have h3 := hent (u', some (du', pu')) heu
        simp only [EntryOk] at h3
        have hdu : du' ≤ wcost G q0 := h3.2.2.2 q0 hq0 (by omega)
        have hcost : wcost G q = wcost G q0 + w' := by
          rw [hqq, wcost_snoc G v hq0l, hw']
          rfl
        rw [hcost]
        linarith

theorem relaxRound_ok (G : RoadGraph) (s k : ℕ) (dist : List (ℕ × Entry))
    (h : StateOk G s k dist) : StateOk G s (k + 1) (relaxRound G dist) := by
  obtain ⟨hfst, hent⟩ := h
  constructor
  · unfold relaxRound
    rw [List.map_map]
    have hcomp : (Prod.fst ∘ fun ve : ℕ × Entry => (ve.1, relaxNode G dist ve.1 ve.2)) =
        Prod.fst := by
      funext ve
      rfl
    rw [hcomp, hfst]
  · intro ve hve
    unfold relaxRound at hve
    rw [List.mem_map] at hve
    obtain ⟨⟨u, eu⟩, hmem, heq⟩ := hve
    rw [← heq]
    exact relaxNode_ok G s k u eu dist hfst hent (hent (u, eu) hmem)

theorem bf_iterate_ok (G : RoadGraph) (s : ℕ) :
    ∀ k, StateOk G s k ((relaxRound G)^[k] (initDist G s)) := by
  intro k
  induction k with
  | zero => exact initDist_ok G s
  | succ n ih =>
    rw [Function.iterate_succ_apply']
    exact relaxRound_ok G s n _ ih

theorem bfDist_ok (G : RoadGraph) (s : ℕ) :
    StateOk G s (nodesOf G s).length (bfDist G s) :=
  bf_iterate_ok G s (nodesOf G s).length

/-! ### Lookup -/

theorem lookup_mem {dist : List (ℕ × Entry)} {u : ℕ} {e : Entry}
    (h : dist.lookup u = some e) : (u, e) ∈ dist := by
  induction dist with
  | nil => cases h
  | cons a rest ih =>
    obtain ⟨kk, vv⟩ := a
    by_cases hk : kk = u
    · subst hk
      simp only [List.lookup, beq_self_eq_true] at h
      injection h with h
      rw [← h]
      exact List.mem_cons_self _ _
    · have hbeq : (u == kk) = false := beq_eq_false_iff_ne.mpr (Ne.symm hk)
      simp only [List.lookup, hbeq] at h
      exact List.mem_cons_of_mem _ (ih h)

theorem lookup_isSome_of_mem_keys {dist : List (ℕ × Entry)} {u : ℕ}
    (h : u ∈ dist.map Prod.fst) : (dist.lookup u).isSome := by
  induction dist with
  | nil => simp at h
  | cons a rest ih =>
    obtain ⟨kk, vv⟩ := a
    by_cases hk : kk = u
    · subst hk
      simp [List.lookup]
    · have hbeq : (u == kk) = false := beq_eq_false_iff_ne.mpr (Ne.symm hk)
      have hmem : u ∈ rest.map Prod.fst := by
        simp only [List.map_cons, List.mem_cons] at h
        rcases h with h | h
        · exact absurd h.symm hk
        · exact h
      simp only [List.lookup, hbeq]
      exact ih hmem

/-! ## Claim C4 -/

/-- C4: for nonnegative edge weights, whenever the Shortest Path Engine
returns a result it is a valid walk of the stated cost whose total
travel-time weight is less than or equal to that of *any* other path between
the two nodes, and a `none` result means no path exists.  Determinism is
inherent: the engine is a pure function of its inputs, and its tie-break
among equal-cost candidates (spec §4.4) is the deterministic
lexicographically-smallest rule built into `betterEntry`. -/
theorem C4_shortest_path_optimal (G : RoadGraph) (s t : ℕ)
    (hw : ∀ e ∈ G, 0 ≤ e.w) :
    (∀ c p, shortest_path G s t = some (c, p) →
        IsWalk G s t p ∧ wcost G p = c ∧ ∀ q, IsWalk G s t q → c ≤ wcost G q) ∧
    (shortest_path G s t = none → ∀ q, ¬ IsWalk G s t q) := by
  obtain ⟨hfst, hent⟩ := bfDist_ok G s
  constructor
  · intro c p hsp
    have hlk : (bfDist G s).lookup t = some (some (c, p)) := by
      unfold shortest_path at hsp
      cases hl : (bfDist G s).lookup t with
      | none =>
        rw [hl] at hsp
        cases hsp
      | some e =>
        rw [hl] at hsp
        cases e with
        | none => cases hsp
        | some cp =>
          have hcp : cp = (c, p) := by simpa using hsp
          rw [hcp]
    have hE := hent _ (lookup_mem hlk)
    simp only [EntryOk] at hE
    obtain ⟨hwalk, hlen, hcost, hmin⟩ := hE
    refine ⟨hwalk, hcost, ?_⟩
    intro q hq
    obtain ⟨q', hq', hnd, hle⟩ := walk_shorten hw q.length q (le_refl _) hq
    have hql : q'.length ≤ (nodesOf G s).length := nodup_walk_length hq' hnd
    exact le_trans (hmin q' hq' (by omega)) hle
  · intro hnone q hq
    unfold shortest_path at hnone
    cases hl : (bfDist G s).lookup t with
    | some e =>
      cases e with
      | some cp =>
        rw [hl] at hnone
        cases hnone
      | none =>
        have hE := hent _ (lookup_mem hl)
        simp only [EntryOk] at hE
        obtain ⟨q', hq', hnd, -⟩ := walk_shorten hw q.length q (le_refl _) hq
        have hql : q'.length ≤ (nodesOf G s).length := nodup_walk_length hq' hnd
        exact hE q' hq' (by omega)
    | none =>
      have ht : t ∉ nodesOf G s := by
        intro hmem
        have hs : ((bfDist G s).lookup t).isSome :=
          lookup_isSome_of_mem_keys (by rw [hfst]; exact hmem)
        rw [hl] at hs
        cases hs
      have hne : q ≠ [] := hq.1
      have hlast : q.getLast? = some t := hq.2.2.1
      have htq : t ∈ q := by
        have h1 := List.getLast?_eq_getLast q hne
        rw [hlast] at h1
        rw [Option.some_inj.mp h1]
        exact List.getLast_mem hne
      exact ht (walk_nodes_subset hq t htq)

theorem scenario_nodes : nodesOf scenarioGraph 0 = [0, 1, 2] := by decide

theorem scenario_minW_00 : minW scenarioGraph 0 0 = none := by
  norm_num [minW, pweights, scenarioGraph, List.filterMap_cons, List.filterMap_nil]

theorem scenario_minW_01 : minW scenarioGraph 0 1 = some (6/5) := by
  norm_num [minW, pweights, scenarioGraph, travel_time_minutes,
    List.filterMap_cons, List.filterMap_nil]

theorem scenario_minW_02 : minW scenarioGraph 0 2 = none := by
  norm_num [minW, pweights, scenarioGraph, List.filterMap_cons, List.filterMap_nil]

theorem scenario_minW_10 : minW scenarioGraph 1 0 = none := by
  norm_num [minW, pweights, scenarioGraph, List.filterMap_cons, List.filterMap_nil]

theorem scenario_minW_11 : minW scenarioGraph 1 1 = none := by
  norm_num [minW, pweights, scenarioGraph, List.filterMap_cons, List.filterMap_nil]

theorem scenario_minW_12 : minW scenarioGraph 1 2 = some 3 := by
  norm_num [minW, pweights, scenarioGraph, travel_time_minutes,
    List.filterMap_cons, List.filterMap_nil]

theorem scenario_minW_20 : minW scenarioGraph 2 0 = none := by
  norm_num [minW, pweights, scenarioGraph, List.filterMap_cons, List.filterMap_nil]

theorem scenario_minW_21 : minW scenarioGraph 2 1 = none := by
  norm_num [minW, pweights, scenarioGraph, List.filterMap_cons, List.filterMap_nil]

theorem scenario_minW_22 : minW scenarioGraph 2 2 = none := by
  norm_num [minW, pweights, scenarioGraph, List.filterMap_cons, List.filterMap_nil]

theorem scenario_init : initDist scenarioGraph 0 =
    [(0, some ((0 : ℚ), [0])), (1, none), (2, none)] := by
  rw [initDist, scenario_nodes]
  norm_num

theorem scenario_round1 :
    relaxRound scenarioGraph [(0, some ((0 : ℚ), [0])), (1, none), (2, none)] =
      [(0, some ((0 : ℚ), [0])), (1, some (6/5, [0, 1])), (2, none)] := by
  norm_num [relaxRound, relaxNode, candidates, List.filterMap_cons, List.filterMap_nil,
    mergeEntry, scenario_minW_00, scenario_minW_01, scenario_minW_02, scenario_minW_10,
    scenario_minW_11, scenario_minW_12, scenario_minW_20, scenario_minW_21,
    scenario_minW_22]

theorem scenario_round2 :
    relaxRound scenarioGraph
        [(0, some ((0 : ℚ), [0])), (1, some (6/5, [0, 1])), (2, none)] =
      [(0, some ((0 : ℚ), [0])), (1, some (6/5, [0, 1])), (2, some (21/5, [0, 1, 2]))] := by
  norm_num [relaxRound, relaxNode, candidates, List.filterMap_cons, List.filterMap_nil,
    mergeEntry, betterEntry, lexLt, scenario_minW_00, scenario_minW_01, scenario_minW_02,
    scenario_minW_10, scenario_minW_11, scenario_minW_12, scenario_minW_20,
    scenario_minW_21, scenario_minW_22]

theorem scenario_round3 :
    relaxRound scenarioGraph
        [(0, some ((0 : ℚ), [0])), (1, some (6/5, [0, 1])), (2, some (21/5, [0, 1, 2]))] =
      [(0, some ((0 : ℚ), [0])), (1, some (6/5, [0, 1])), (2, some (21/5, [0, 1, 2]))] := by
  norm_num [relaxRound, relaxNode, candidates, List.filterMap_cons, List.filterMap_nil,
    mergeEntry, betterEntry, lexLt, scenario_minW_00, scenario_minW_01, scenario_minW_02,
    scenario_minW_10, scenario_minW_11, scenario_minW_12, scenario_minW_20,
    scenario_minW_21, scenario_minW_22]

theorem scenario_bfDist : bfDist scenarioGraph 0 =
    [(0, some ((0 : ℚ), [0])), (1, some (6/5, [0, 1])), (2, some (21/5, [0, 1, 2]))] := by
  have hstep : bfDist scenarioGraph 0 = relaxRound scenarioGraph (relaxRound scenarioGraph
      (relaxRound scenarioGraph (initDist scenarioGraph 0))) := by
    rw [bfDist, scenario_nodes]
    rfl
  rw [hstep, scenario_init, scenario_round1, scenario_round2, scenario_round3]

/-- The engine on the scenario graph: path `[A, B, C]` at total weight
`21/5 = 4.2` minutes. -/
theorem scenario_shortest_path :
    shortest_path scenarioGraph 0 2 = some (21/5, [0, 1, 2]) := by
  rw [shortest_path, scenario_bfDist]
  rfl

/-- C4 witness: on the scenario graph (nonnegative weights hold by
computation) the engine's answer `[0, 1, 2]` is a walk and its cost `21/5`
is a lower bound on the cost of every walk from 0 to 2. -/
theorem C4_shortest_path_optimal_witness :
    (∀ e ∈ scenarioGraph, 0 ≤ e.w) ∧
    IsWalk scenarioGraph 0 2 [0, 1, 2] ∧
    (∀ q, IsWalk scenarioGraph 0 2 q → (21/5 : ℚ) ≤ wcost scenarioGraph q) := by
  have hw : ∀ e ∈ scenarioGraph, 0 ≤ e.w := by
    intro e he
    simp only [scenarioGraph, List.mem_cons, List.not_mem_nil, or_false] at he
    rcases he with rfl | rfl <;> norm_num [travel_time_minutes]
  have hmain := (C4_shortest_path_optimal scenarioGraph 0 2 hw).1
    (21/5) [0, 1, 2] scenario_shortest_path
  exact ⟨hw, hmain.1, hmain.2.2⟩

/-! ## Claim C3 -/

/-- C3: the per-segment weight is `(length_m / 1000 / speed_kph) × 60`
minutes; on the spec's scenario the two segments weigh `6/5 = 1.2` and `3.0`
minutes, the engine's shortest path from A to C is `[A, B, C]` with total
travel time `21/5 = 4.2` minutes, and the statistics pass over that path
reports total distance `3.0` km and total travel time `4.2` minutes. -/
theorem C3_travel_time_scenario :
    (∀ L s : ℚ, travel_time_minutes L s = L / 1000 / s * 60) ∧
    travel_time_minutes 1000 50 = 6/5 ∧
    travel_time_minutes 2000 40 = 3 ∧
    shortest_path scenarioGraph 0 2 = some (21/5, [0, 1, 2]) ∧
    (calculate_path_stats scenarioEdges (some [0, 1, 2])).travel_time = 21/5 ∧
    (calculate_path_stats scenarioEdges (some [0, 1, 2])).distance = 3 := by
  refine ⟨fun L s => rfl, by norm_num [travel_time_minutes],
    by norm_num [travel_time_minutes], scenario_shortest_path, ?_, ?_⟩ <;>
    norm_num [calculate_path_stats, scenarioEdges, selectEdge, List.zip]

end UrbanLift
